import Mathlib

/-!
Verification development for `Script.py`, a batch pipeline that turns
spreadsheet rows (name, song, start timestamp) into trimmed audio clips.

The Python source is shallowly embedded as executable Lean definitions:

* `timestamp_to_ms` (Script.py lines 34-40) over an explicit model of
  Python `str.strip`, `str.split` and `int()`;
* `download_song` (lines 42-59) as a retry loop over an oracle giving each
  attempt's outcome (success with some downloaded content, non-zero exit
  raised as `CalledProcessError`, or another thrown error such as
  `FileNotFoundError` from a missing executable, which the source does not
  catch);
* `trim_song` (lines 61-105) over an abstract audio segment carrying the
  fields the claims speak about (length in milliseconds, channel count);
* `process_row` (lines 113-153) and `process_csv` (lines 155-173) as state
  passing over a filesystem modelled as `String → Option FileVal`.

Raised Python exceptions are modelled with `Except Unit`; a function that
cannot raise is total into the plain result type.
-/

/-- ASCII whitespace recognised by the model of Python `str.strip()`
(space, tab, newline, carriage return, vertical tab, form feed).
Unicode-only whitespace is outside the model. -/
def isPySpace (c : Char) : Bool :=
  c == ' ' || c == '\t' || c == '\n' || c == '\r' || c == Char.ofNat 11 || c == Char.ofNat 12

/-- Model of Python `str.strip()`: drop leading and trailing whitespace. -/
def pyStrip (cs : List Char) : List Char :=
  ((cs.dropWhile isPySpace).reverse.dropWhile isPySpace).reverse

/-- Model of Python `str.strip()` on `String` values. -/
def stripStr (s : String) : String :=
  String.mk (pyStrip s.data)

/-- Value of a decimal digit string (most significant digit first), the
reference meaning of a non-negative decimal numeral. -/
def decVal (cs : List Char) : Nat :=
  cs.foldl (fun a c => a * 10 + (c.toNat - 48)) 0

/-- Tail of the digit part of Python `int()`: after one digit has been read,
further digits may follow, with single underscores allowed between digits
(Python 3 numeric literals accepted by `int()`). -/
def digitTail (acc : Nat) : List Char → Option Nat
  | [] => some acc
  | c :: rest =>
    if c.isDigit then digitTail (acc * 10 + (c.toNat - 48)) rest
    else if c = '_' then
      match rest with
      | [] => none
      | c2 :: rest2 =>
        if c2.isDigit then digitTail (acc * 10 + (c2.toNat - 48)) rest2 else none
    else none

/-- Digit part of Python `int()`: one or more decimal digits (with optional
internal underscores), rejecting the empty string. -/
def digitsVal : List Char → Option Nat
  | [] => none
  | c :: rest => if c.isDigit then digitTail (c.toNat - 48) rest else none

/-- Sign-and-digits core of Python `int(str)` after stripping: an optional
single `+` or `-` sign followed by the digit part. -/
def pyIntCore : List Char → Option Int
  | [] => none
  | c :: rest =>
    if c = '+' then Option.map (fun n : Nat => (n : Int)) (digitsVal rest)
    else if c = '-' then Option.map (fun n : Nat => -(n : Int)) (digitsVal rest)
    else Option.map (fun n : Nat => (n : Int)) (digitsVal (c :: rest))

/-- Model of Python `int(s)` for a decimal string: surrounding whitespace is
ignored, then an optional sign and a non-empty digit run are read; any other
shape raises `ValueError`, modelled as `none`. -/
def pyInt (cs : List Char) : Option Int :=
  pyIntCore (pyStrip cs)

/-- Model of Python `str.split(sep)` for a single-character separator:
splits at every occurrence of `sep`, keeping empty fields, and returns
`[[]]` on the empty string, exactly as Python does. -/
def pySplit (sep : Char) : List Char → List (List Char)
  | [] => [[]]
  | c :: rest =>
    if c = sep then [] :: pySplit sep rest
    else (pySplit sep rest).modifyHead (fun h => c :: h)

/-- Embedding of `timestamp_to_ms` (Script.py lines 34-40):
`min_, sec = map(int, ts.strip().split(":")); return (min_*60+sec)*1000`,
with every exception of the `try` block (wrong number of fields, a field
`int()` rejects) caught and turned into `None`, modelled as `none`.
The function is total: it never raises to its caller. -/
def timestamp_to_ms (ts : String) : Option Int :=
  match pySplit ':' (pyStrip ts.data) with
  | [m, s] =>
    match pyInt m, pyInt s with
    | some mins, some secs => some ((mins * 60 + secs) * 1000)
    | _, _ => none
  | _ => none

/-- Parse-failure condition of `timestamp_to_ms`: the stripped input does not
split at `:` into exactly two fields, or one of the fields is rejected by
`int()`. -/
def badParse (ts : String) : Bool :=
  match pySplit ':' (pyStrip ts.data) with
  | [m, s] => (pyInt m).isNone || (pyInt s).isNone
  | _ => true

-- Helper lemmas about the Python string primitives.

lemma dropWhile_eq_of_no_sat (p : Char → Bool) (cs : List Char)
    (h : ∀ c ∈ cs, p c = false) : cs.dropWhile p = cs := by
  cases cs with
  | nil => rfl
  | cons c t => simp [List.dropWhile_cons, h c (List.mem_cons_self c t)]

lemma pyStrip_eq_self (cs : List Char) (h : ∀ c ∈ cs, isPySpace c = false) :
    pyStrip cs = cs := by
  unfold pyStrip
  rw [dropWhile_eq_of_no_sat _ cs h]
  rw [dropWhile_eq_of_no_sat _ cs.reverse (fun c hc => h c (List.mem_reverse.mp hc))]
  exact List.reverse_reverse cs

lemma pySplit_no_sep (sep : Char) (cs : List Char) (h : ∀ c ∈ cs, c ≠ sep) :
    pySplit sep cs = [cs] := by
  induction cs with
  | nil => rfl
  | cons c t ih =>
    have hc : c ≠ sep := h c (List.mem_cons_self c t)
    simp [pySplit, hc, ih (fun x hx => h x (List.mem_cons_of_mem c hx))]

lemma pySplit_pair (sep : Char) (m s : List Char)
    (hm : ∀ c ∈ m, c ≠ sep) (hs : ∀ c ∈ s, c ≠ sep) :
    pySplit sep (m ++ sep :: s) = [m, s] := by
  induction m with
  | nil => simp [pySplit, pySplit_no_sep sep s hs]
  | cons c t ih =>
    have hc : c ≠ sep := hm c (List.mem_cons_self c t)
    simp [pySplit, hc, ih (fun x hx => hm x (List.mem_cons_of_mem c hx))]

lemma digit_not_space (c : Char) (h : c.isDigit = true) : isPySpace c = false := by
  cases hps : isPySpace c with
  | false => rfl
  | true =>
    exfalso
    unfold isPySpace at hps
    simp only [Bool.or_eq_true, beq_iff_eq] at hps
    rcases hps with ((((h1 | h1) | h1) | h1) | h1) | h1 <;>
      (subst h1; exact absurd h (by decide))

lemma digit_ne_colon (c : Char) (h : c.isDigit = true) : c ≠ ':' := by
  intro e; subst e; exact absurd h (by decide)

lemma digitTail_digits (cs : List Char) : ∀ acc : Nat,
    (∀ c ∈ cs, c.isDigit = true) →
    digitTail acc cs = some (cs.foldl (fun a c => a * 10 + (c.toNat - 48)) acc) := by
  induction cs with
  | nil => intro acc _; rfl
  | cons c t ih =>
    intro acc h
    have hc : c.isDigit = true := h c (List.mem_cons_self c t)
    have hstep : digitTail acc (c :: t) = digitTail (acc * 10 + (c.toNat - 48)) t := by
      conv_lhs => rw [digitTail.eq_def]
      simp only [hc, if_true]
    rw [hstep, ih _ (fun x hx => h x (List.mem_cons_of_mem c hx)), List.foldl_cons]

lemma pyInt_digits (cs : List Char) (h0 : cs ≠ [])
    (h : ∀ c ∈ cs, c.isDigit = true) : pyInt cs = some ((decVal cs : Int)) := by
  have hstrip : pyStrip cs = cs :=
    pyStrip_eq_self cs (fun c hc => digit_not_space c (h c hc))
  unfold pyInt
  rw [hstrip]
  cases cs with
  | nil => exact absurd rfl h0
  | cons c t =>
    have hc : c.isDigit = true := h c (List.mem_cons_self c t)
    have hplus : c ≠ '+' := by intro e; subst e; exact absurd hc (by decide)
    have hminus : c ≠ '-' := by intro e; subst e; exact absurd hc (by decide)
    have hcore : pyIntCore (c :: t) =
        if c = '+' then Option.map (fun n : Nat => (n : Int)) (digitsVal t)
        else if c = '-' then Option.map (fun n : Nat => -(n : Int)) (digitsVal t)
        else Option.map (fun n : Nat => (n : Int)) (digitsVal (c :: t)) := rfl
    have hdig : digitsVal (c :: t) =
        if c.isDigit = true then digitTail (c.toNat - 48) t else none := rfl
    rw [hcore, if_neg hplus, if_neg hminus, hdig, if_pos hc,
      digitTail_digits t (c.toNat - 48) (fun x hx => h x (List.mem_cons_of_mem c hx))]
    simp [decVal, List.foldl_cons]

/-- C1: for every input of the form `MM:SS` with `MM` and `SS` non-negative
decimal numerals (of arbitrary magnitude, `SS` not restricted below 60),
`timestamp_to_ms` returns exactly `(MM*60+SS)*1000` milliseconds. -/
theorem timestamp_to_ms_valid_pair (m s : List Char)
    (hm0 : m ≠ []) (hm : ∀ c ∈ m, c.isDigit = true)
    (hs0 : s ≠ []) (hs : ∀ c ∈ s, c.isDigit = true) :
    timestamp_to_ms (String.mk (m ++ ':' :: s)) =
      some (((decVal m : Int) * 60 + (decVal s : Int)) * 1000) := by
  unfold timestamp_to_ms
  have hdata : (String.mk (m ++ ':' :: s)).data = m ++ ':' :: s := rfl
  rw [hdata]
  have hns : ∀ c ∈ m ++ ':' :: s, isPySpace c = false := by
    intro c hc
    rcases List.mem_append.mp hc with h1 | h1
    · exact digit_not_space c (hm c h1)
    · rcases List.mem_cons.mp h1 with h2 | h2
      · subst h2; decide
      · exact digit_not_space c (hs c h2)
  rw [pyStrip_eq_self _ hns]
  rw [pySplit_pair ':' m s (fun c hc => digit_ne_colon c (hm c hc))
        (fun c hc => digit_ne_colon c (hs c hc))]
  simp [pyInt_digits m hm0 hm, pyInt_digits s hs0 hs]

/-- Witness for C1 at the concrete input `"12:34"`. -/
theorem timestamp_to_ms_valid_pair_witness :
    (['1', '2'] : List Char) ≠ [] ∧ (∀ c ∈ (['1', '2'] : List Char), c.isDigit = true) ∧
    (['3', '4'] : List Char) ≠ [] ∧ (∀ c ∈ (['3', '4'] : List Char), c.isDigit = true) ∧
    timestamp_to_ms (String.mk (['1', '2'] ++ ':' :: ['3', '4'])) =
      some (((decVal ['1', '2'] : Int) * 60 + (decVal ['3', '4'] : Int)) * 1000) :=
  ⟨by decide, by decide, by decide, by decide,
    timestamp_to_ms_valid_pair ['1', '2'] ['3', '4'] (by decide) (by decide) (by decide) (by decide)⟩

/-- C2 counterexample: the input `"-1:30"` parses (Python `int` accepts a
sign), the result `(-1*60+30)*1000 = -30000` is negative, and
`timestamp_to_ms` returns it instead of the sentinel `None` — the source has
no negativity check. -/
theorem timestamp_to_ms_negative_not_none :
    timestamp_to_ms "-1:30" = some (-30000) ∧ (-30000 : Int) < 0 := by
  constructor
  · decide
  · decide

/-- C2 amended: on wrong format or a field `int()` rejects (the condition
`badParse`), `timestamp_to_ms` returns the sentinel `none`; it is a total
function, so it never raises.  (A well-formed pair whose value is negative is
returned as a negative number, not as the sentinel.) -/
theorem timestamp_to_ms_malformed_none (ts : String) (h : badParse ts = true) :
    timestamp_to_ms ts = none := by
  unfold timestamp_to_ms
  unfold badParse at h
  rcases hsp : pySplit ':' (pyStrip ts.data) with _ | ⟨m, rest⟩
  · rfl
  rcases rest with _ | ⟨s, rest2⟩
  · rfl
  rcases rest2 with _ | ⟨t3, rest3⟩
  · rw [hsp] at h
    simp only [Bool.or_eq_true, Option.isNone_iff_eq_none] at h
    rcases h with h1 | h1 <;> simp [h1]
  · rfl

/-- Witness for C2's amended theorem at the concrete input `"abc"`. -/
theorem timestamp_to_ms_malformed_none_witness :
    badParse "abc" = true ∧ timestamp_to_ms "abc" = none :=
  ⟨by decide, timestamp_to_ms_malformed_none "abc" (by decide)⟩

/-- Abstract in-memory audio segment: the model keeps the two attributes the
claims speak about, total length in milliseconds and channel count.  Sample
data, loudness and fade envelopes do not affect either attribute. -/
structure AudioSeg where
  len : Nat
  channels : Nat
  deriving DecidableEq, Repr

/-- Resolution of one slice boundary, Python slicing semantics as used by
pydub `audio[start_ms:end_ms]`: a negative index counts from the end
(clamped at 0), a non-negative one is clamped at the length. -/
def pySliceIdx (L : Nat) (i : Int) : Nat :=
  if i < 0 then ((L : Int) + i).toNat else min i.toNat L

/-- Model of `audio[start_ms:end_ms]` (Script.py line 71): the sliced
segment, whose length is the distance between the resolved boundaries
(never negative, never past the end of the buffer). -/
def pySlice (audio : AudioSeg) (s e : Int) : AudioSeg :=
  { len := pySliceIdx audio.len e - pySliceIdx audio.len s
    channels := audio.channels }

/-- End offset computed by `trim_song` (Script.py lines 68-70):
`end_ms = start_ms + duration_sec * 1000`, reset to the total length
whenever it exceeds it. -/
def clampEnd (L : Nat) (start_ms : Int) (duration_sec : Nat) : Int :=
  if start_ms + duration_sec * 1000 > L then L else start_ms + duration_sec * 1000

/-- Model of pydub `set_channels` (Script.py line 74): forces the channel
count, length unchanged. -/
def AudioSeg.set_channels (seg : AudioSeg) (n : Nat) : AudioSeg :=
  { seg with channels := n }

/-- Model of pydub `apply_gain`: a uniform gain change alters sample
amplitudes only; length and channel count are unchanged, which is all the
model tracks. -/
def AudioSeg.apply_gain (seg : AudioSeg) (change : Int) : AudioSeg :=
  seg

/-- Model of pydub `fade_in`: a fade envelope rescales samples in place;
length and channel count are unchanged. -/
def AudioSeg.fade_in (seg : AudioSeg) (duration : Nat) : AudioSeg :=
  seg

/-- Model of pydub `fade_out`, as for `AudioSeg.fade_in`. -/
def AudioSeg.fade_out (seg : AudioSeg) (duration : Nat) : AudioSeg :=
  seg

/-- Embedding of `match_target_amplitude` (Script.py lines 107-109):
`apply_gain(target_dBFS - sound.dBFS)`.  The dBFS measure is a float over
sample data, outside the model; the gain target is modelled as an `Int` and
the gain application keeps length and channels. -/
def match_target_amplitude (sound : AudioSeg) (target : Int) : AudioSeg :=
  sound.apply_gain target

/-- Configuration keys of `config.json` read by the embedded functions
(Script.py lines 16, 46, 77, 81-99, 114-145).  `log_file`, `csv_file`,
`csv_delimiter`, the `csv_columns` mapping and `parallel_workers` are
plumbing of the batch driver, handled outside these definitions;
`audio_bitrate` and `sample_rate` only shape the export command line. -/
structure Config where
  output_dir : String
  audio_format : String
  target_dBFS : Int
  fade_in : Bool
  fade_in_duration_ms : Nat
  fade_out : Bool
  fade_out_duration_ms : Nat
  overwrite_existing_files : Bool
  max_download_retries : Nat
  retry_delay_seconds : Nat
  default_clip_duration_seconds : Nat
  normalize_audio : Bool

/-- Content of a file on disk: opaque bytes (a downloaded or partially
written file) or an exported audio clip. -/
inductive FileVal where
  | bytes (n : Nat)
  | clip (seg : AudioSeg)
  deriving DecidableEq, Repr

/-- Filesystem state: maps a path to its content, `none` when absent. -/
abbrev Fs := String → Option FileVal

/-- Pointwise filesystem update (a write for `some`, a delete for `none`). -/
def fsSet (fs : Fs) (p : String) (v : Option FileVal) : Fs :=
  fun q => if q = p then v else fs q

/-- Outcome of one invocation of the external `yt-dlp` subprocess
(Script.py line 53): it terminates successfully producing some content,
or exits non-zero (raised as `subprocess.CalledProcessError`, which the
source catches), or raises any other error — e.g. `FileNotFoundError`
when the executable is missing — which the source does not catch. -/
inductive RunOutcome where
  | ok (content : Nat)
  | exitErr
  | osErr
  deriving DecidableEq, Repr

/-- Test for the successful outcome. -/
def RunOutcome.isOk : RunOutcome → Bool
  | RunOutcome.ok _ => true
  | _ => false

/-- Observable step of a row's processing: an invocation of the external
downloader (with its 1-based attempt number), a `time.sleep(delay)`, the
invocation of the trimmer, or the deletion of the temporary file. -/
inductive Event where
  | downloadAttempt (n : Nat)
  | sleep (d : Nat)
  | trimCall
  | removeTemp
  deriving DecidableEq, Repr

/-- Retry loop of `download_song` (Script.py lines 50-59), from a given
attempt number with a given number of attempts remaining (the source
iterates `attempt` over `range(1, retries + 1)`).  On success the external
process writes the resolved output file; sleeping happens only after a
failed attempt with `attempt < retries`; a `CalledProcessError` is caught
and retried, any other raised error propagates (`Except.error`). -/
def download_from (orc : Nat → RunOutcome) (path : String) (retries delay : Nat) (fs : Fs) :
    Nat → Nat → Except Unit Bool × List Event × Fs
  | 0, _ => (Except.ok false, [], fs)
  | remaining + 1, attempt =>
    match orc attempt with
    | RunOutcome.ok c =>
      (Except.ok true, [Event.downloadAttempt attempt], fsSet fs path (some (FileVal.bytes c)))
    | RunOutcome.exitErr =>
      let rest := download_from orc path retries delay fs remaining (attempt + 1)
      if attempt < retries then
        (rest.1, Event.downloadAttempt attempt :: Event.sleep delay :: rest.2.1, rest.2.2)
      else
        (rest.1, Event.downloadAttempt attempt :: rest.2.1, rest.2.2)
    | RunOutcome.osErr => (Except.error (), [Event.downloadAttempt attempt], fs)

/-- Embedding of `download_song` (Script.py lines 42-59).  The `query`
selects the search result; which content each attempt produces is abstracted
into the per-attempt oracle `orc`.  `path` is the file the external command
resolves the output template to.  Returns the boolean result (or a
propagated exception), the events performed, and the new filesystem. -/
def download_song (query : String) (orc : Nat → RunOutcome) (path : String)
    (retries delay : Nat) (fs : Fs) : Except Unit Bool × List Event × Fs :=
  download_from orc path retries delay fs retries 1

/-- Outcome of the pydub `export` call (Script.py line 101): success, a
failure raised before the output file is touched, or a failure that leaves
a partially written file (pydub writes directly to the final path). -/
inductive ExportOutcome where
  | ok
  | failClean
  | failDirty (junk : Nat)
  deriving DecidableEq, Repr

/-- Oracle for the external audio codec used by one `trim_song` call:
the result of decoding the input (`none` models a raised decode error)
and the outcome of the export step. -/
structure TrimOracle where
  decode : Option AudioSeg
  exportRes : ExportOutcome

/-- Snippet pipeline of `trim_song` (Script.py lines 68-88): slice, force
stereo, optional normalization, optional fades. -/
def trimClip (cfg : Config) (audio : AudioSeg) (start_ms : Int)
    (duration_sec : Nat) (normalize : Bool) : AudioSeg :=
  let snippet := pySlice audio start_ms (clampEnd audio.len start_ms duration_sec)
  let snippet := snippet.set_channels 2
  let snippet := if normalize then match_target_amplitude snippet cfg.target_dBFS else snippet
  let snippet :=
    if cfg.fade_in ∧ cfg.fade_in_duration_ms > 0 then snippet.fade_in cfg.fade_in_duration_ms
    else snippet
  let snippet :=
    if cfg.fade_out ∧ cfg.fade_out_duration_ms > 0 then snippet.fade_out cfg.fade_out_duration_ms
    else snippet
  snippet

/-- Embedding of `trim_song` (Script.py lines 61-105): parse the start
timestamp (invalid → `false`), decode the input (missing file or decode
error → `false`), build the snippet, export.  Every error of the `try`
block is caught and reported as `false`, so the function is total; a dirty
export failure still leaves a partial file at the output path. -/
def trim_song (cfg : Config) (tr : TrimOracle) (fs : Fs) (input_path output_path : String)
    (start_time : String) (duration_sec : Nat) (normalize : Bool) : Bool × Fs :=
  match timestamp_to_ms start_time with
  | none => (false, fs)
  | some start_ms =>
    match (if fs input_path = none then none else tr.decode) with
    | none => (false, fs)
    | some audio =>
      match tr.exportRes with
      | ExportOutcome.ok =>
        (true,
         fsSet fs output_path (some (FileVal.clip (trimClip cfg audio start_ms duration_sec normalize))))
      | ExportOutcome.failClean => (false, fs)
      | ExportOutcome.failDirty j => (false, fsSet fs output_path (some (FileVal.bytes j)))

/-- C4: the slice taken by `trim_song` before channel/gain/fade processing,
for a decodable source of length `L` ms, a valid (non-negative) start offset
`S` and a clip duration of `D` seconds, has length `min (D*1000) (L - S)`
(truncated subtraction: clamped, never negative), and its resolved end
boundary never exceeds the source length. -/
theorem trim_slice_length (L S D ch : Nat) :
    (pySlice { len := L, channels := ch } (S : Int) (clampEnd L (S : Int) D)).len =
      min (D * 1000) (L - S) ∧
    pySliceIdx L (clampEnd L (S : Int) D) ≤ L := by
  simp only [pySlice, pySliceIdx, clampEnd]
  constructor
  · split_ifs <;> omega
  · split_ifs <;> omega

lemma trimClip_channels (cfg : Config) (audio : AudioSeg) (sm : Int) (D : Nat) (n : Bool) :
    (trimClip cfg audio sm D n).channels = 2 := by
  simp [trimClip, match_target_amplitude, AudioSeg.apply_gain, AudioSeg.fade_in,
    AudioSeg.fade_out, AudioSeg.set_channels]

lemma trim_song_frame (cfg : Config) (tr : TrimOracle) (fs : Fs)
    (inp out st : String) (D : Nat) (n : Bool) (q : String) (hq : q ≠ out) :
    (trim_song cfg tr fs inp out st D n).2 q = fs q := by
  unfold trim_song
  cases timestamp_to_ms st with
  | none => rfl
  | some sm =>
    cases hdec : (if fs inp = none then none else tr.decode) with
    | none => rfl
    | some audio =>
      cases tr.exportRes with
      | ok => simp [fsSet, hq]
      | failClean => rfl
      | failDirty j => simp [fsSet, hq]

lemma trim_song_true (cfg : Config) (tr : TrimOracle) (fs : Fs)
    (inp out st : String) (D : Nat) (n : Bool)
    (h : (trim_song cfg tr fs inp out st D n).1 = true) :
    ∃ seg : AudioSeg,
      (trim_song cfg tr fs inp out st D n).2 out = some (FileVal.clip seg) ∧
      seg.channels = 2 := by
  unfold trim_song at h ⊢
  cases hts : timestamp_to_ms st with
  | none => rw [hts] at h; simp at h
  | some sm =>
    rw [hts] at h
    cases hdec : (if fs inp = none then none else tr.decode) with
    | none => rw [hdec] at h; simp at h
    | some audio =>
      rw [hdec] at h
      cases hexp : tr.exportRes with
      | ok =>
        refine ⟨trimClip cfg audio sm D n, ?_, trimClip_channels cfg audio sm D n⟩
        simp [fsSet]
      | failClean => rw [hexp] at h; simp at h
      | failDirty j => rw [hexp] at h; simp at h

lemma trim_song_false_fs (cfg : Config) (tr : TrimOracle) (fs : Fs)
    (inp out st : String) (D : Nat) (n : Bool)
    (hexp : ∀ j, tr.exportRes ≠ ExportOutcome.failDirty j)
    (h : (trim_song cfg tr fs inp out st D n).1 = false) :
    (trim_song cfg tr fs inp out st D n).2 = fs := by
  unfold trim_song at h ⊢
  cases hts : timestamp_to_ms st with
  | none => rfl
  | some sm =>
    rw [hts] at h
    cases hdec : (if fs inp = none then none else tr.decode) with
    | none => rfl
    | some audio =>
      rw [hdec] at h
      cases hexp2 : tr.exportRes with
      | ok => rw [hexp2] at h; simp at h
      | failClean => rfl
      | failDirty j => exact absurd hexp2 (hexp j)

/-- C5: whenever `trim_song` succeeds, the clip it exported to the output
path has exactly 2 channels, regardless of the channel count of the decoded
source (mono included): line 74 forces `set_channels(2)` and no later step
changes the channel count. -/
theorem trim_song_stereo (cfg : Config) (tr : TrimOracle) (fs : Fs)
    (inp out st : String) (D : Nat) (n : Bool)
    (h : (trim_song cfg tr fs inp out st D n).1 = true) :
    ∃ seg : AudioSeg,
      (trim_song cfg tr fs inp out st D n).2 out = some (FileVal.clip seg) ∧
      seg.channels = 2 :=
  trim_song_true cfg tr fs inp out st D n h

/-- Sample configuration used by the concrete witnesses below. -/
def sampleCfg : Config :=
  { output_dir := "out", audio_format := "mp3", target_dBFS := -20,
    fade_in := false, fade_in_duration_ms := 0,
    fade_out := false, fade_out_duration_ms := 0,
    overwrite_existing_files := false, max_download_retries := 3,
    retry_delay_seconds := 5, default_clip_duration_seconds := 30,
    normalize_audio := true }

/-- Empty filesystem used by the concrete witnesses below. -/
def emptyFs : Fs := fun _ => none

/-- Filesystem holding one decodable input file, for the trimmer witnesses. -/
def sampleFsIn : Fs := fun p => if p = "in.mp3" then some (FileVal.bytes 1) else none

/-- Codec oracle whose decode and export both succeed (a mono source). -/
def trOk : TrimOracle :=
  { decode := some { len := 200000, channels := 1 }, exportRes := ExportOutcome.ok }

/-- Witness for C5 at a concrete successful `trim_song` run. -/
theorem trim_song_stereo_witness :
    (trim_song sampleCfg trOk sampleFsIn "in.mp3" "out.mp3" "0:30" 30 true).1 = true ∧
    ∃ seg : AudioSeg,
      (trim_song sampleCfg trOk sampleFsIn "in.mp3" "out.mp3" "0:30" 30 true).2 "out.mp3" =
        some (FileVal.clip seg) ∧ seg.channels = 2 :=
  ⟨by decide,
   trim_song_stereo sampleCfg trOk sampleFsIn "in.mp3" "out.mp3" "0:30" 30 true (by decide)⟩

/-- Number of downloader invocations recorded in an event list. -/
def countAttempts (es : List Event) : Nat :=
  (es.filter fun e => match e with | Event.downloadAttempt _ => true | _ => false).length

/-- Number of sleeps of a given delay recorded in an event list. -/
def countSleeps (d : Nat) (es : List Event) : Nat :=
  (es.filter fun e => decide (e = Event.sleep d)).length

lemma download_from_zero (orc : Nat → RunOutcome) (path : String) (retries delay : Nat)
    (fs : Fs) (attempt : Nat) :
    download_from orc path retries delay fs 0 attempt = (Except.ok false, [], fs) := rfl

lemma download_from_step_ok (orc : Nat → RunOutcome) (path : String) (retries delay : Nat)
    (fs : Fs) (m attempt c : Nat) (horc : orc attempt = RunOutcome.ok c) :
    download_from orc path retries delay fs (m + 1) attempt =
      (Except.ok true, [Event.downloadAttempt attempt],
       fsSet fs path (some (FileVal.bytes c))) := by
  simp [download_from, horc]

lemma download_from_step_exit (orc : Nat → RunOutcome) (path : String) (retries delay : Nat)
    (fs : Fs) (m attempt : Nat) (horc : orc attempt = RunOutcome.exitErr) :
    download_from orc path retries delay fs (m + 1) attempt =
      ((download_from orc path retries delay fs m (attempt + 1)).1,
       (if attempt < retries then
          Event.downloadAttempt attempt :: Event.sleep delay ::
            (download_from orc path retries delay fs m (attempt + 1)).2.1
        else
          Event.downloadAttempt attempt ::
            (download_from orc path retries delay fs m (attempt + 1)).2.1),
       (download_from orc path retries delay fs m (attempt + 1)).2.2) := by
  simp only [download_from, horc]
  split <;> rfl

lemma download_from_step_os (orc : Nat → RunOutcome) (path : String) (retries delay : Nat)
    (fs : Fs) (m attempt : Nat) (horc : orc attempt = RunOutcome.osErr) :
    download_from orc path retries delay fs (m + 1) attempt =
      (Except.error (), [Event.downloadAttempt attempt], fs) := by
  simp [download_from, horc]

lemma download_from_spec (orc : Nat → RunOutcome) (path : String) (retries delay : Nat)
    (fs : Fs) : ∀ remaining attempt : Nat,
    (∀ i, attempt ≤ i → i < attempt + remaining → orc i ≠ RunOutcome.osErr) →
    ((download_from orc path retries delay fs remaining attempt).1 = Except.ok true ∧
      ∃ i c, attempt ≤ i ∧ i < attempt + remaining ∧ orc i = RunOutcome.ok c) ∨
    ((download_from orc path retries delay fs remaining attempt).1 = Except.ok false ∧
      ∀ i, attempt ≤ i → i < attempt + remaining → orc i = RunOutcome.exitErr) := by
  intro remaining
  induction remaining with
  | zero =>
    intro attempt _
    right
    refine ⟨by rw [download_from_zero], ?_⟩
    intro i h1 h2
    omega
  | succ m ih =>
    intro attempt h
    cases horc : orc attempt with
    | ok c =>
      left
      refine ⟨by rw [download_from_step_ok orc path retries delay fs m attempt c horc], ?_⟩
      exact ⟨attempt, c, le_refl _, by omega, horc⟩
    | exitErr =>
      have hrec := ih (attempt + 1) (fun i h1 h2 => h i (by omega) (by omega))
      have hres : (download_from orc path retries delay fs (m + 1) attempt).1 =
          (download_from orc path retries delay fs m (attempt + 1)).1 := by
        rw [download_from_step_exit orc path retries delay fs m attempt horc]
      rcases hrec with ⟨h1, i, c, hi1, hi2, hi3⟩ | ⟨h1, h2⟩
      · left
        exact ⟨by rw [hres]; exact h1, i, c, by omega, by omega, hi3⟩
      · right
        refine ⟨by rw [hres]; exact h1, ?_⟩
        intro i hle hlt
        rcases Nat.eq_or_lt_of_le hle with heq | hlt2
        · rw [← heq]; exact horc
        · exact h2 i (by omega) (by omega)
    | osErr => exact absurd horc (h attempt (le_refl _) (by omega))

lemma download_from_ok_true (orc : Nat → RunOutcome) (path : String) (retries delay : Nat)
    (fs : Fs) : ∀ remaining attempt : Nat,
    (download_from orc path retries delay fs remaining attempt).1 = Except.ok true →
    ∃ i c, orc i = RunOutcome.ok c ∧
      Event.downloadAttempt i ∈ (download_from orc path retries delay fs remaining attempt).2.1 ∧
      (download_from orc path retries delay fs remaining attempt).2.2 =
        fsSet fs path (some (FileVal.bytes c)) := by
  intro remaining
  induction remaining with
  | zero =>
    intro attempt h
    rw [download_from_zero] at h
    simp at h
  | succ m ih =>
    intro attempt h
    cases horc : orc attempt with
    | ok c =>
      rw [download_from_step_ok orc path retries delay fs m attempt c horc]
      exact ⟨attempt, c, horc, by simp, rfl⟩
    | exitErr =>
      rw [download_from_step_exit orc path retries delay fs m attempt horc] at h ⊢
      obtain ⟨i, c, hic, hmem, hfs⟩ := ih (attempt + 1) h
      refine ⟨i, c, hic, ?_, hfs⟩
      dsimp only
      split <;> simp [hmem]
    | osErr =>
      rw [download_from_step_os orc path retries delay fs m attempt horc] at h
      simp at h

lemma download_from_frame (orc : Nat → RunOutcome) (path : String) (retries delay : Nat)
    (fs : Fs) (q : String) (hq : q ≠ path) : ∀ remaining attempt : Nat,
    (download_from orc path retries delay fs remaining attempt).2.2 q = fs q := by
  intro remaining
  induction remaining with
  | zero => intro attempt; rw [download_from_zero]
  | succ m ih =>
    intro attempt
    cases horc : orc attempt with
    | ok c =>
      rw [download_from_step_ok orc path retries delay fs m attempt c horc]
      simp [fsSet, hq]
    | exitErr =>
      rw [download_from_step_exit orc path retries delay fs m attempt horc]
      exact ih (attempt + 1)
    | osErr => rw [download_from_step_os orc path retries delay fs m attempt horc]

lemma download_from_events (orc : Nat → RunOutcome) (path : String) (retries delay : Nat)
    (fs : Fs) : ∀ (remaining attempt : Nat) (e : Event),
    e ∈ (download_from orc path retries delay fs remaining attempt).2.1 →
    (∃ i, e = Event.downloadAttempt i) ∨ e = Event.sleep delay := by
  intro remaining
  induction remaining with
  | zero =>
    intro attempt e he
    rw [download_from_zero] at he
    simp at he
  | succ m ih =>
    intro attempt e he
    cases horc : orc attempt with
    | ok c =>
      rw [download_from_step_ok orc path retries delay fs m attempt c horc] at he
      simp at he
      exact Or.inl ⟨attempt, he⟩
    | exitErr =>
      rw [download_from_step_exit orc path retries delay fs m attempt horc] at he
      dsimp only at he
      rcases hsp : decide (attempt < retries) with _ | _
      · have hlt : ¬ attempt < retries := of_decide_eq_false hsp
        rw [if_neg hlt] at he
        rcases List.mem_cons.mp he with he1 | he1
        · exact Or.inl ⟨attempt, he1⟩
        · exact ih (attempt + 1) e he1
      · have hlt : attempt < retries := of_decide_eq_true hsp
        rw [if_pos hlt] at he
        rcases List.mem_cons.mp he with he1 | he1
        · exact Or.inl ⟨attempt, he1⟩
        · rcases List.mem_cons.mp he1 with he2 | he2
          · exact Or.inr he2
          · exact ih (attempt + 1) e he2
    | osErr =>
      rw [download_from_step_os orc path retries delay fs m attempt horc] at he
      simp at he
      exact Or.inl ⟨attempt, he⟩

lemma download_from_ok_shape (orc : Nat → RunOutcome) (path : String) (retries delay : Nat)
    (fs : Fs) (hn : ∀ i, orc i ≠ RunOutcome.osErr) : ∀ remaining attempt : Nat,
    ∃ b, (download_from orc path retries delay fs remaining attempt).1 = Except.ok b := by
  intro remaining
  induction remaining with
  | zero => intro attempt; exact ⟨false, by rw [download_from_zero]⟩
  | succ m ih =>
    intro attempt
    cases horc : orc attempt with
    | ok c =>
      exact ⟨true, by rw [download_from_step_ok orc path retries delay fs m attempt c horc]⟩
    | exitErr =>
      obtain ⟨b, hb⟩ := ih (attempt + 1)
      exact ⟨b, by rw [download_from_step_exit orc path retries delay fs m attempt horc]; exact hb⟩
    | osErr => exact absurd horc (hn attempt)

lemma download_from_counts (orc : Nat → RunOutcome) (path : String) (retries delay : Nat)
    (fs : Fs) : ∀ m attempt : Nat, attempt + m = retries + 1 →
    (∀ i, attempt ≤ i → i < attempt + m → orc i = RunOutcome.exitErr) →
    countAttempts (download_from orc path retries delay fs m attempt).2.1 = m ∧
    countSleeps delay (download_from orc path retries delay fs m attempt).2.1 = m - 1 := by
  intro m
  induction m with
  | zero =>
    intro attempt _ _
    rw [download_from_zero]
    exact ⟨rfl, rfl⟩
  | succ k ih =>
    intro attempt hinv hall
    have horc : orc attempt = RunOutcome.exitErr := hall attempt (le_refl _) (by omega)
    rw [download_from_step_exit orc path retries delay fs k attempt horc]
    dsimp only
    by_cases hlt : attempt < retries
    · have hk : 1 ≤ k := by omega
      obtain ⟨ha, hs⟩ := ih (attempt + 1) (by omega) (fun i h1 h2 => hall i (by omega) (by omega))
      rw [if_pos hlt]
      constructor
      · simp [countAttempts, List.filter_cons] at ha ⊢
        omega
      · simp [countSleeps, List.filter_cons] at hs ⊢
        omega
    · have hk : k = 0 := by omega
      subst hk
      rw [if_neg hlt, download_from_zero]
      exact ⟨rfl, rfl⟩

/-- C3 counterexample: with `retries = 2` and every invocation of the
external command raising an error that is not a `CalledProcessError`
(e.g. `FileNotFoundError` because `yt-dlp` is not installed),
`download_song` performs only attempt 1 — no retry, no sleep — and
propagates the exception instead of returning `false`: the source catches
only `subprocess.CalledProcessError` (Script.py line 55). -/
theorem download_song_oserr_raises :
    (download_song "q" (fun _ => RunOutcome.osErr) "tmp" 2 5 emptyFs).1 = Except.error () ∧
    (download_song "q" (fun _ => RunOutcome.osErr) "tmp" 2 5 emptyFs).2.1 =
      [Event.downloadAttempt 1] :=
  ⟨rfl, rfl⟩

/-- C3 amended: `download_song` retries only on a non-zero exit of the
external invocation (`CalledProcessError`); any other thrown error
propagates at once (see the counterexample).  Provided no attempt in
`1..r` throws such an error, the call returns `true` iff some attempt in
`1..r` completes without error, returns `false` (without raising) iff all
`r` attempts exit non-zero, and in that all-fail case it makes exactly `r`
attempts with exactly `r - 1` sleeps of the configured delay between
consecutive attempts. -/
theorem download_song_retry (query : String) (orc : Nat → RunOutcome) (path : String)
    (delay : Nat) (fs : Fs) (r : Nat) (hr : 1 ≤ r)
    (hn : ∀ i, 1 ≤ i → i ≤ r → orc i ≠ RunOutcome.osErr) :
    ((download_song query orc path r delay fs).1 = Except.ok true ↔
      ∃ i c, 1 ≤ i ∧ i ≤ r ∧ orc i = RunOutcome.ok c) ∧
    ((download_song query orc path r delay fs).1 = Except.ok false ↔
      ∀ i, 1 ≤ i → i ≤ r → orc i = RunOutcome.exitErr) ∧
    ((∀ i, 1 ≤ i → i ≤ r → orc i = RunOutcome.exitErr) →
      countAttempts (download_song query orc path r delay fs).2.1 = r ∧
      countSleeps delay (download_song query orc path r delay fs).2.1 = r - 1) := by
  have hspec := download_from_spec orc path r delay fs r 1
    (fun i h1 h2 => hn i h1 (by omega))
  refine ⟨?_, ?_, ?_⟩
  · constructor
    · intro hok
      rcases hspec with ⟨h1, i, c, hi1, hi2, hi3⟩ | ⟨h1, h2⟩
      · exact ⟨i, c, hi1, by omega, hi3⟩
      · rw [download_song] at hok
        rw [hok] at h1
        simp at h1
    · intro hex
      rcases hspec with ⟨h1, _⟩ | ⟨h1, h2⟩
      · exact h1
      · obtain ⟨i, c, hi1, hi2, hi3⟩ := hex
        have := h2 i hi1 (by omega)
        rw [hi3] at this
        simp at this
  · constructor
    · intro hok
      rcases hspec with ⟨h1, i, c, hi1, hi2, hi3⟩ | ⟨h1, h2⟩
      · rw [download_song] at hok
        rw [hok] at h1
        simp at h1
      · exact fun i h3 h4 => h2 i h3 (by omega)
    · intro hall
      rcases hspec with ⟨h1, i, c, hi1, hi2, hi3⟩ | ⟨h1, h2⟩
      · have := hall i hi1 (by omega)
        rw [hi3] at this
        simp at this
      · exact h1
  · intro hall
    exact download_from_counts orc path r delay fs r 1 (by omega)
      (fun i h1 h2 => hall i h1 (by omega))

/-- Witness for C3's amended theorem: two attempts, the first exits
non-zero, the second succeeds. -/
theorem download_song_retry_witness :
    (1 ≤ 2) ∧
    (∀ i, 1 ≤ i → i ≤ 2 →
      (fun i => if i = 1 then RunOutcome.exitErr else RunOutcome.ok 5) i ≠ RunOutcome.osErr) ∧
    (((download_song "q" (fun i => if i = 1 then RunOutcome.exitErr else RunOutcome.ok 5)
        "tmp" 2 5 emptyFs).1 = Except.ok true ↔
      ∃ i c, 1 ≤ i ∧ i ≤ 2 ∧
        (fun i => if i = 1 then RunOutcome.exitErr else RunOutcome.ok 5) i = RunOutcome.ok c) ∧
    ((download_song "q" (fun i => if i = 1 then RunOutcome.exitErr else RunOutcome.ok 5)
        "tmp" 2 5 emptyFs).1 = Except.ok false ↔
      ∀ i, 1 ≤ i → i ≤ 2 →
        (fun i => if i = 1 then RunOutcome.exitErr else RunOutcome.ok 5) i = RunOutcome.exitErr) ∧
    ((∀ i, 1 ≤ i → i ≤ 2 →
        (fun i => if i = 1 then RunOutcome.exitErr else RunOutcome.ok 5) i = RunOutcome.exitErr) →
      countAttempts (download_song "q"
        (fun i => if i = 1 then RunOutcome.exitErr else RunOutcome.ok 5) "tmp" 2 5 emptyFs).2.1 = 2 ∧
      countSleeps 5 (download_song "q"
        (fun i => if i = 1 then RunOutcome.exitErr else RunOutcome.ok 5) "tmp" 2 5 emptyFs).2.1 = 1)) :=
  ⟨by decide,
   fun i _ _ => by dsimp only; split <;> decide,
   download_song_retry "q" (fun i => if i = 1 then RunOutcome.exitErr else RunOutcome.ok 5)
     "tmp" 5 emptyFs 2 (by decide) (fun i _ _ => by dsimp only; split <;> decide)⟩

/-- Boolean test that a pattern is a prefix of a list of characters. -/
def startsWith : List Char → List Char → Bool
  | [], _ => true
  | _ :: _, [] => false
  | p :: ps, c :: cs => p == c && startsWith ps cs

/-- Scanner of the `str.replace` model: replaces every non-overlapping
occurrence of `pat`, scanning left to right.  Each step consumes at least
one character but only one unit of fuel, so fuel equal to the input length
always suffices; the fuel keeps the recursion structural. -/
def pyReplaceGo (pat rep : List Char) : Nat → List Char → List Char
  | _, [] => []
  | 0, c :: rest => c :: rest
  | fuel + 1, c :: rest =>
    if pat ≠ [] ∧ startsWith pat (c :: rest) = true then
      rep ++ pyReplaceGo pat rep fuel ((c :: rest).drop pat.length)
    else c :: pyReplaceGo pat rep fuel rest

/-- Model of Python `str.replace(old, new)` for a non-empty `old`: replace
every non-overlapping occurrence, scanning left to right.  (For an empty
`old` this model is the identity; the only pattern used is `"%(ext)s"`.) -/
def pyReplace (pat rep cs : List Char) : List Char :=
  pyReplaceGo pat rep cs.length cs

/-- One spreadsheet row, holding the values of
`row.get(config["csv_columns"][k], "")` for the four configured columns
(Script.py lines 114-117), before the `.strip()` calls. -/
structure Row where
  firstName : String
  lastName : String
  song : String
  startTime : String

/-- Validation of Script.py line 119: all four stripped fields non-empty. -/
def rowComplete (row : Row) : Prop :=
  stripStr row.firstName ≠ "" ∧ stripStr row.lastName ≠ "" ∧
  stripStr row.song ≠ "" ∧ stripStr row.startTime ≠ ""

/-- Base filename `"{lastName}, {firstName}"` (Script.py line 123). -/
def filename_base (row : Row) : String :=
  stripStr row.lastName ++ ", " ++ stripStr row.firstName

/-- Final output path (Script.py line 125); `os.path.join` modelled as
concatenation with `"/"` for a relative name under the output directory. -/
def final_path (cfg : Config) (row : Row) : String :=
  cfg.output_dir ++ "/" ++ filename_base row ++ "." ++ cfg.audio_format

/-- Templated temporary download path (Script.py line 126). -/
def temp_path (cfg : Config) (row : Row) : String :=
  cfg.output_dir ++ "/" ++ filename_base row ++ "_full.%(ext)s"

/-- Resolved downloaded file: `temp_path.replace("%(ext)s", audio_format)`
(Script.py line 141), also the path the external download writes. -/
def downloaded_file (cfg : Config) (row : Row) : String :=
  String.mk (pyReplace "%(ext)s".data cfg.audio_format.data (temp_path cfg row).data)

/-- Embedding of `process_row` (Script.py lines 113-153): skip incomplete
rows, skip when the final file exists and overwriting is disabled, download
(a propagated downloader exception also escapes `process_row`, which has no
handler), trim, and delete the temporary file when it still exists.  Logging
and `print` calls carry no state and are not modelled; the event list records
the external invocations. -/
def process_row (cfg : Config) (dl : Nat → RunOutcome) (tr : TrimOracle)
    (row : Row) (fs : Fs) : Except Unit Unit × List Event × Fs :=
  if stripStr row.firstName = "" ∨ stripStr row.lastName = "" ∨
      stripStr row.song = "" ∨ stripStr row.startTime = "" then
    (Except.ok (), [], fs)
  else if (fs (final_path cfg row)).isSome = true ∧ cfg.overwrite_existing_files = false then
    (Except.ok (), [], fs)
  else
    match download_song (stripStr row.song) dl (downloaded_file cfg row)
        cfg.max_download_retries cfg.retry_delay_seconds fs with
    | (Except.error e, ev, fs1) => (Except.error e, ev, fs1)
    | (Except.ok false, ev, fs1) => (Except.ok (), ev, fs1)
    | (Except.ok true, ev, fs1) =>
      match trim_song cfg tr fs1 (downloaded_file cfg row) (final_path cfg row)
          (stripStr row.startTime) cfg.default_clip_duration_seconds cfg.normalize_audio with
      | (false, fs2) => (Except.ok (), ev ++ [Event.trimCall], fs2)
      | (true, fs2) =>
        if (fs2 (downloaded_file cfg row)).isSome = true then
          (Except.ok (), ev ++ [Event.trimCall, Event.removeTemp],
           fsSet fs2 (downloaded_file cfg row) none)
        else
          (Except.ok (), ev ++ [Event.trimCall], fs2)

/-- Batch loop of `process_csv` (Script.py lines 164-172): one task per row
(each row gets its own oracles, indexed by row number), every task result
collected under `try/except Exception` so a row's escaped exception is
logged and never aborts the loop, and the progress counter incremented in
`finally` — once per row whatever the outcome.  The worker pool's
interleaving only affects completion order; the model processes the
independent rows in list order. -/
def csv_loop (cfg : Config) (dl : Nat → Nat → RunOutcome) (tr : Nat → TrimOracle) :
    List Row → Nat → Nat → Fs → Nat × List (Except Unit Unit) × Fs
  | [], _, progress, fs => (progress, [], fs)
  | row :: rest, idx, progress, fs =>
    let r := process_row cfg (dl idx) (tr idx) row fs
    let next := csv_loop cfg dl tr rest (idx + 1) (progress + 1) r.2.2
    (next.1, r.1 :: next.2.1, next.2.2)

/-- Embedding of `process_csv` (Script.py lines 155-173): all rows read
up front, then dispatched; returns the final progress count, the per-row
outcomes (an `Except.error` is a row whose `process_row` raised), and the
final filesystem. -/
def process_csv (cfg : Config) (dl : Nat → Nat → RunOutcome) (tr : Nat → TrimOracle)
    (rows : List Row) (fs : Fs) : Nat × List (Except Unit Unit) × Fs :=
  csv_loop cfg dl tr rows 0 0 fs

/-- Sample complete row used by the concrete witnesses below. -/
def sampleRow : Row :=
  { firstName := "Max", lastName := "Muster", song := "Tune", startTime := "0:30" }

/-- Filesystem on which the sample row's final file already exists. -/
def fsExisting : Fs :=
  fun p => if p = final_path sampleCfg sampleRow then some (FileVal.bytes 3) else none

/-- C6: for a row whose computed final path already exists, with
`overwrite_existing_files = false`, `process_row` returns at line 130:
no downloader or trimmer invocation happens (no event at all) and the
filesystem — in particular the existing final file — is untouched. -/
theorem process_row_skip_existing (cfg : Config) (dl : Nat → RunOutcome)
    (tr : TrimOracle) (row : Row) (fs : Fs)
    (hov : cfg.overwrite_existing_files = false)
    (hex : (fs (final_path cfg row)).isSome = true) :
    process_row cfg dl tr row fs = (Except.ok (), [], fs) := by
  unfold process_row
  by_cases hemp : stripStr row.firstName = "" ∨ stripStr row.lastName = "" ∨
      stripStr row.song = "" ∨ stripStr row.startTime = ""
  · rw [if_pos hemp]
  · rw [if_neg hemp, if_pos ⟨hex, hov⟩]

/-- Witness for C6 at a concrete row and filesystem. -/
theorem process_row_skip_existing_witness :
    sampleCfg.overwrite_existing_files = false ∧
    (fsExisting (final_path sampleCfg sampleRow)).isSome = true ∧
    process_row sampleCfg (fun _ => RunOutcome.exitErr) trOk sampleRow fsExisting =
      (Except.ok (), [], fsExisting) :=
  ⟨by decide, by decide,
   process_row_skip_existing sampleCfg (fun _ => RunOutcome.exitErr) trOk sampleRow fsExisting
     (by decide) (by decide)⟩

/-- C7 counterexample: a complete row, no existing final file, and a
download invocation that raises an error other than `CalledProcessError`
(e.g. `FileNotFoundError`): the exception escapes `process_row`, which has
no exception handler of its own (Script.py lines 113-153), contradicting
"never raises". -/
theorem process_row_oserr_raises :
    (process_row sampleCfg (fun _ => RunOutcome.osErr) trOk sampleRow emptyFs).1 =
      Except.error () := rfl

/-- C7 amended: `process_row` never raises — all enumerated failure paths
(incomplete fields, existing file, download failure, trim failure) log and
return normally — provided every failure of the external download invocation
is a non-zero exit; an exception of another class thrown by that invocation
propagates to the caller (and is only caught by the batch driver). -/
theorem process_row_no_raise (cfg : Config) (dl : Nat → RunOutcome) (tr : TrimOracle)
    (row : Row) (fs : Fs) (hn : ∀ i, dl i ≠ RunOutcome.osErr) :
    (process_row cfg dl tr row fs).1 = Except.ok () := by
  unfold process_row
  by_cases hemp : stripStr row.firstName = "" ∨ stripStr row.lastName = "" ∨
      stripStr row.song = "" ∨ stripStr row.startTime = ""
  · rw [if_pos hemp]
  · rw [if_neg hemp]
    by_cases hskip : (fs (final_path cfg row)).isSome = true ∧
        cfg.overwrite_existing_files = false
    · rw [if_pos hskip]
    · rw [if_neg hskip]
      obtain ⟨b, hb⟩ := download_from_ok_shape dl (downloaded_file cfg row)
        cfg.max_download_retries cfg.retry_delay_seconds fs hn cfg.max_download_retries 1
      split
      · rename_i e ev fs1 heq
        have h3 : (download_song (stripStr row.song) dl (downloaded_file cfg row)
            cfg.max_download_retries cfg.retry_delay_seconds fs).1 = Except.error e := by
          rw [heq]
        have h4 : Except.error e = Except.ok b := by
          rw [← h3]
          exact hb
        exact Except.noConfusion h4
      · rfl
      · split
        · rfl
        · split <;> rfl

/-- Codec oracle whose decode succeeds but whose export fails after
partially writing the output file. -/
def trDirty : TrimOracle :=
  { decode := some { len := 200000, channels := 1 }, exportRes := ExportOutcome.failDirty 9 }

/-- Codec oracle whose decode succeeds and whose export fails without
touching the output file. -/
def trFail : TrimOracle :=
  { decode := some { len := 200000, channels := 1 }, exportRes := ExportOutcome.failClean }

/-- C8 counterexample: download succeeds, the export step of the trimmer
fails after partially writing the final file (pydub exports directly to the
final path, Script.py line 101).  `process_row` returns normally, yet the
job is neither fully completed (the trim failed, the temp file is still on
disk) nor "not completed at all": a partial final file of junk bytes is
left behind. -/
theorem process_row_partial_final :
    (process_row sampleCfg (fun _ => RunOutcome.ok 7) trDirty sampleRow emptyFs).1 =
      Except.ok () ∧
    (process_row sampleCfg (fun _ => RunOutcome.ok 7) trDirty sampleRow emptyFs).2.2
      (final_path sampleCfg sampleRow) = some (FileVal.bytes 9) ∧
    (process_row sampleCfg (fun _ => RunOutcome.ok 7) trDirty sampleRow emptyFs).2.2
      (downloaded_file sampleCfg sampleRow) = some (FileVal.bytes 7) :=
  ⟨rfl, rfl, rfl⟩

/-- C8 amended: provided the export step never fails with a partial write
(the known limitation shown in the counterexample), each row's job is
atomic: either fully completed — the final path holds an exported clip and
the temporary file is removed — or the final path is left exactly as it
was.  The steps are ordered with failure short-circuiting: the trimmer runs
only after a download attempt succeeded, and the temp-file deletion only
after the trimmer ran. -/
theorem process_row_atomic (cfg : Config) (dl : Nat → RunOutcome) (tr : TrimOracle)
    (row : Row) (fs : Fs)
    (hexp : ∀ j, tr.exportRes ≠ ExportOutcome.failDirty j)
    (hdist : downloaded_file cfg row ≠ final_path cfg row) :
    ((∃ seg, (process_row cfg dl tr row fs).2.2 (final_path cfg row) =
        some (FileVal.clip seg)) ∧
      (process_row cfg dl tr row fs).2.2 (downloaded_file cfg row) = none ∨
     (process_row cfg dl tr row fs).2.2 (final_path cfg row) = fs (final_path cfg row)) ∧
    (Event.trimCall ∈ (process_row cfg dl tr row fs).2.1 →
      ∃ i c, Event.downloadAttempt i ∈ (process_row cfg dl tr row fs).2.1 ∧
        dl i = RunOutcome.ok c) ∧
    (Event.removeTemp ∈ (process_row cfg dl tr row fs).2.1 →
      Event.trimCall ∈ (process_row cfg dl tr row fs).2.1) := by
  unfold process_row
  by_cases hemp : stripStr row.firstName = "" ∨ stripStr row.lastName = "" ∨
      stripStr row.song = "" ∨ stripStr row.startTime = ""
  · rw [if_pos hemp]
    exact ⟨Or.inr rfl, fun h => absurd h (by simp), fun h => absurd h (by simp)⟩
  · rw [if_neg hemp]
    by_cases hskip : (fs (final_path cfg row)).isSome = true ∧
        cfg.overwrite_existing_files = false
    · rw [if_pos hskip]
      exact ⟨Or.inr rfl, fun h => absurd h (by simp), fun h => absurd h (by simp)⟩
    · rw [if_neg hskip]
      have hfr := download_from_frame dl (downloaded_file cfg row)
        cfg.max_download_retries cfg.retry_delay_seconds fs (final_path cfg row)
        (fun h => hdist h.symm) cfg.max_download_retries 1
      split
      · rename_i e ev fs1 heq
        have hev : (download_song (stripStr row.song) dl (downloaded_file cfg row)
            cfg.max_download_retries cfg.retry_delay_seconds fs).2.1 = ev := by rw [heq]
        have hfs1 : (download_song (stripStr row.song) dl (downloaded_file cfg row)
            cfg.max_download_retries cfg.retry_delay_seconds fs).2.2 = fs1 := by rw [heq]
        refine ⟨Or.inr ?_, ?_, ?_⟩
        · show fs1 (final_path cfg row) = fs (final_path cfg row)
          rw [← hfs1]
          exact hfr
        · intro h
          rcases download_from_events dl (downloaded_file cfg row) cfg.max_download_retries
              cfg.retry_delay_seconds fs cfg.max_download_retries 1 Event.trimCall
              (by rw [show (download_from dl (downloaded_file cfg row) cfg.max_download_retries
                cfg.retry_delay_seconds fs cfg.max_download_retries 1).2.1 = ev from hev]; exact h)
            with ⟨i, hi⟩ | hi <;> exact Event.noConfusion hi
        · intro h
          rcases download_from_events dl (downloaded_file cfg row) cfg.max_download_retries
              cfg.retry_delay_seconds fs cfg.max_download_retries 1 Event.removeTemp
              (by rw [show (download_from dl (downloaded_file cfg row) cfg.max_download_retries
                cfg.retry_delay_seconds fs cfg.max_download_retries 1).2.1 = ev from hev]; exact h)
            with ⟨i, hi⟩ | hi <;> exact Event.noConfusion hi
      · rename_i ev fs1 heq
        have hev : (download_song (stripStr row.song) dl (downloaded_file cfg row)
            cfg.max_download_retries cfg.retry_delay_seconds fs).2.1 = ev := by rw [heq]
        have hfs1 : (download_song (stripStr row.song) dl (downloaded_file cfg row)
            cfg.max_download_retries cfg.retry_delay_seconds fs).2.2 = fs1 := by rw [heq]
        refine ⟨Or.inr ?_, ?_, ?_⟩
        · show fs1 (final_path cfg row) = fs (final_path cfg row)
          rw [← hfs1]
          exact hfr
        · intro h
          rcases download_from_events dl (downloaded_file cfg row) cfg.max_download_retries
              cfg.retry_delay_seconds fs cfg.max_download_retries 1 Event.trimCall
              (by rw [show (download_from dl (downloaded_file cfg row) cfg.max_download_retries
                cfg.retry_delay_seconds fs cfg.max_download_retries 1).2.1 = ev from hev]; exact h)
            with ⟨i, hi⟩ | hi <;> exact Event.noConfusion hi
        · intro h
          rcases download_from_events dl (downloaded_file cfg row) cfg.max_download_retries
              cfg.retry_delay_seconds fs cfg.max_download_retries 1 Event.removeTemp
              (by rw [show (download_from dl (downloaded_file cfg row) cfg.max_download_retries
                cfg.retry_delay_seconds fs cfg.max_download_retries 1).2.1 = ev from hev]; exact h)
            with ⟨i, hi⟩ | hi <;> exact Event.noConfusion hi
      · rename_i ev fs1 heq
        have hok : (download_from dl (downloaded_file cfg row) cfg.max_download_retries
            cfg.retry_delay_seconds fs cfg.max_download_retries 1).1 = Except.ok true := by
          rw [show (download_from dl (downloaded_file cfg row) cfg.max_download_retries
            cfg.retry_delay_seconds fs cfg.max_download_retries 1) =
              download_song (stripStr row.song) dl (downloaded_file cfg row)
                cfg.max_download_retries cfg.retry_delay_seconds fs from rfl, heq]
        obtain ⟨i, c, hic, hmem, hfsd⟩ := download_from_ok_true dl (downloaded_file cfg row)
          cfg.max_download_retries cfg.retry_delay_seconds fs cfg.max_download_retries 1 hok
        have hev : (download_song (stripStr row.song) dl (downloaded_file cfg row)
            cfg.max_download_retries cfg.retry_delay_seconds fs).2.1 = ev := by rw [heq]
        have hfs1 : (download_song (stripStr row.song) dl (downloaded_file cfg row)
            cfg.max_download_retries cfg.retry_delay_seconds fs).2.2 = fs1 := by rw [heq]
        have hmem2 : Event.downloadAttempt i ∈ ev := by rw [← hev]; exact hmem
        have hfs1b : fs1 = fsSet fs (downloaded_file cfg row) (some (FileVal.bytes c)) := by
          rw [← hfs1]
          exact hfsd
        split
        · rename_i fs2 heq2
          have htf : (trim_song cfg tr fs1 (downloaded_file cfg row) (final_path cfg row)
              (stripStr row.startTime) cfg.default_clip_duration_seconds
              cfg.normalize_audio).1 = false := by rw [heq2]
          have hfs2 : (trim_song cfg tr fs1 (downloaded_file cfg row) (final_path cfg row)
              (stripStr row.startTime) cfg.default_clip_duration_seconds
              cfg.normalize_audio).2 = fs2 := by rw [heq2]
          have hfs2b : fs2 = fs1 := by
            rw [← hfs2]
            exact trim_song_false_fs cfg tr fs1 (downloaded_file cfg row) (final_path cfg row)
              (stripStr row.startTime) cfg.default_clip_duration_seconds cfg.normalize_audio
              hexp htf
          refine ⟨Or.inr ?_, ?_, ?_⟩
          · show fs2 (final_path cfg row) = fs (final_path cfg row)
            rw [hfs2b, hfs1b]
            unfold fsSet
            rw [if_neg (fun h => hdist h.symm)]
          · intro _
            exact ⟨i, c, List.mem_append_left _ hmem2, hic⟩
          · intro _
            simp
        · rename_i fs2 heq2
          have htt : (trim_song cfg tr fs1 (downloaded_file cfg row) (final_path cfg row)
              (stripStr row.startTime) cfg.default_clip_duration_seconds
              cfg.normalize_audio).1 = true := by rw [heq2]
          have hfs2 : (trim_song cfg tr fs1 (downloaded_file cfg row) (final_path cfg row)
              (stripStr row.startTime) cfg.default_clip_duration_seconds
              cfg.normalize_audio).2 = fs2 := by rw [heq2]
          obtain ⟨seg, hseg, hch⟩ := trim_song_true cfg tr fs1 (downloaded_file cfg row)
            (final_path cfg row) (stripStr row.startTime) cfg.default_clip_duration_seconds
            cfg.normalize_audio htt
          rw [hfs2] at hseg
          have hdl2 : fs2 (downloaded_file cfg row) = some (FileVal.bytes c) := by
            have hfr2 := trim_song_frame cfg tr fs1 (downloaded_file cfg row)
              (final_path cfg row) (stripStr row.startTime) cfg.default_clip_duration_seconds
              cfg.normalize_audio (downloaded_file cfg row) hdist
            rw [hfs2] at hfr2
            rw [hfr2, hfs1b]
            unfold fsSet
            rw [if_pos rfl]
          rw [if_pos (show (fs2 (downloaded_file cfg row)).isSome = true by rw [hdl2]; rfl)]
          refine ⟨Or.inl ⟨⟨seg, ?_⟩, ?_⟩, ?_, ?_⟩
          · show fsSet fs2 (downloaded_file cfg row) none (final_path cfg row) =
              some (FileVal.clip seg)
            unfold fsSet
            rw [if_neg (fun h => hdist h.symm)]
            exact hseg
          · show fsSet fs2 (downloaded_file cfg row) none (downloaded_file cfg row) = none
            unfold fsSet
            rw [if_pos rfl]
          · intro _
            exact ⟨i, c, List.mem_append_left _ hmem2, hic⟩
          · intro _
            simp

/-- Witness for C7's amended theorem: a downloader whose every attempt
exits non-zero; `process_row` still returns normally. -/
theorem process_row_no_raise_witness :
    (∀ i : Nat, (fun _ : Nat => RunOutcome.exitErr) i ≠ RunOutcome.osErr) ∧
    (process_row sampleCfg (fun _ => RunOutcome.exitErr) trOk sampleRow emptyFs).1 =
      Except.ok () :=
  ⟨(fun _ h => nomatch h),
   process_row_no_raise sampleCfg (fun _ => RunOutcome.exitErr) trOk sampleRow emptyFs
     (fun _ h => nomatch h)⟩

/-- Witness for C8's amended theorem at a fully successful concrete run. -/
theorem process_row_atomic_witness :
    (∀ j, trOk.exportRes ≠ ExportOutcome.failDirty j) ∧
    downloaded_file sampleCfg sampleRow ≠ final_path sampleCfg sampleRow ∧
    (((∃ seg, (process_row sampleCfg (fun _ => RunOutcome.ok 7) trOk sampleRow emptyFs).2.2
        (final_path sampleCfg sampleRow) = some (FileVal.clip seg)) ∧
      (process_row sampleCfg (fun _ => RunOutcome.ok 7) trOk sampleRow emptyFs).2.2
        (downloaded_file sampleCfg sampleRow) = none ∨
     (process_row sampleCfg (fun _ => RunOutcome.ok 7) trOk sampleRow emptyFs).2.2
        (final_path sampleCfg sampleRow) = emptyFs (final_path sampleCfg sampleRow)) ∧
    (Event.trimCall ∈ (process_row sampleCfg (fun _ => RunOutcome.ok 7) trOk sampleRow emptyFs).2.1 →
      ∃ i c, Event.downloadAttempt i ∈
          (process_row sampleCfg (fun _ => RunOutcome.ok 7) trOk sampleRow emptyFs).2.1 ∧
        (fun _ : Nat => RunOutcome.ok 7) i = RunOutcome.ok c) ∧
    (Event.removeTemp ∈ (process_row sampleCfg (fun _ => RunOutcome.ok 7) trOk sampleRow emptyFs).2.1 →
      Event.trimCall ∈ (process_row sampleCfg (fun _ => RunOutcome.ok 7) trOk sampleRow emptyFs).2.1)) :=
  ⟨(fun _ h => nomatch h), by decide,
   process_row_atomic sampleCfg (fun _ => RunOutcome.ok 7) trOk sampleRow emptyFs
     (fun _ h => nomatch h) (by decide)⟩

/-- C10: when the download succeeds but the trim fails, `process_row`
returns normally without deleting the temporary downloaded file: the
deletion (Script.py lines 150-151) sits after the trim's early return, so
the full downloaded file stays on disk. -/
theorem process_row_keeps_temp (cfg : Config) (dl : Nat → RunOutcome) (tr : TrimOracle)
    (row : Row) (fs : Fs)
    (hcomp : rowComplete row)
    (hskip : ¬((fs (final_path cfg row)).isSome = true ∧
      cfg.overwrite_existing_files = false))
    (hdl : (download_song (stripStr row.song) dl (downloaded_file cfg row)
      cfg.max_download_retries cfg.retry_delay_seconds fs).1 = Except.ok true)
    (htr : (trim_song cfg tr
      (download_song (stripStr row.song) dl (downloaded_file cfg row)
        cfg.max_download_retries cfg.retry_delay_seconds fs).2.2
      (downloaded_file cfg row) (final_path cfg row) (stripStr row.startTime)
      cfg.default_clip_duration_seconds cfg.normalize_audio).1 = false)
    (hdist : downloaded_file cfg row ≠ final_path cfg row) :
    (process_row cfg dl tr row fs).1 = Except.ok () ∧
    Event.removeTemp ∉ (process_row cfg dl tr row fs).2.1 ∧
    ∃ c, (process_row cfg dl tr row fs).2.2 (downloaded_file cfg row) =
      some (FileVal.bytes c) := by
  have hemp : ¬(stripStr row.firstName = "" ∨ stripStr row.lastName = "" ∨
      stripStr row.song = "" ∨ stripStr row.startTime = "") := by
    push_neg
    exact ⟨hcomp.1, hcomp.2.1, hcomp.2.2.1, hcomp.2.2.2⟩
  unfold process_row
  rw [if_neg hemp, if_neg hskip]
  split
  · rename_i e ev fs1 heq
    have h3 : Except.error e = Except.ok true := by
      rw [show Except.error e = (download_song (stripStr row.song) dl (downloaded_file cfg row)
        cfg.max_download_retries cfg.retry_delay_seconds fs).1 from by rw [heq]]
      exact hdl
    exact Except.noConfusion h3
  · rename_i ev fs1 heq
    have h3 : (Except.ok false : Except Unit Bool) = Except.ok true := by
      rw [show (Except.ok false : Except Unit Bool) =
        (download_song (stripStr row.song) dl (downloaded_file cfg row)
          cfg.max_download_retries cfg.retry_delay_seconds fs).1 from by rw [heq]]
      exact hdl
    simp at h3
  · rename_i ev fs1 heq
    have hok : (download_from dl (downloaded_file cfg row) cfg.max_download_retries
        cfg.retry_delay_seconds fs cfg.max_download_retries 1).1 = Except.ok true := by
      rw [show (download_from dl (downloaded_file cfg row) cfg.max_download_retries
        cfg.retry_delay_seconds fs cfg.max_download_retries 1) =
          download_song (stripStr row.song) dl (downloaded_file cfg row)
            cfg.max_download_retries cfg.retry_delay_seconds fs from rfl, heq]
    obtain ⟨i, c, hic, hmem, hfsd⟩ := download_from_ok_true dl (downloaded_file cfg row)
      cfg.max_download_retries cfg.retry_delay_seconds fs cfg.max_download_retries 1 hok
    have hev : (download_song (stripStr row.song) dl (downloaded_file cfg row)
        cfg.max_download_retries cfg.retry_delay_seconds fs).2.1 = ev := by rw [heq]
    have hfs1 : (download_song (stripStr row.song) dl (downloaded_file cfg row)
        cfg.max_download_retries cfg.retry_delay_seconds fs).2.2 = fs1 := by rw [heq]
    have hfs1b : fs1 = fsSet fs (downloaded_file cfg row) (some (FileVal.bytes c)) := by
      rw [← hfs1]
      exact hfsd
    rw [hfs1] at htr
    split
    · rename_i fs2 heq2
      have hfs2 : (trim_song cfg tr fs1 (downloaded_file cfg row) (final_path cfg row)
          (stripStr row.startTime) cfg.default_clip_duration_seconds
          cfg.normalize_audio).2 = fs2 := by rw [heq2]
      refine ⟨rfl, ?_, ?_⟩
      · intro h
        rcases List.mem_append.mp h with h1 | h1
        · rcases download_from_events dl (downloaded_file cfg row) cfg.max_download_retries
              cfg.retry_delay_seconds fs cfg.max_download_retries 1 Event.removeTemp
              (by rw [show (download_from dl (downloaded_file cfg row) cfg.max_download_retries
                cfg.retry_delay_seconds fs cfg.max_download_retries 1).2.1 = ev from hev]
                  exact h1)
            with ⟨j, hj⟩ | hj <;> exact Event.noConfusion hj
        · simp at h1
      · refine ⟨c, ?_⟩
        show fs2 (downloaded_file cfg row) = some (FileVal.bytes c)
        have hfr2 := trim_song_frame cfg tr fs1 (downloaded_file cfg row)
          (final_path cfg row) (stripStr row.startTime) cfg.default_clip_duration_seconds
          cfg.normalize_audio (downloaded_file cfg row) hdist
        rw [hfs2] at hfr2
        rw [hfr2, hfs1b]
        unfold fsSet
        rw [if_pos rfl]
    · rename_i fs2 heq2
      have h4 : (true : Bool) = false := by
        rw [show (true : Bool) = (trim_song cfg tr fs1 (downloaded_file cfg row)
          (final_path cfg row) (stripStr row.startTime) cfg.default_clip_duration_seconds
          cfg.normalize_audio).1 from by rw [heq2]]
        exact htr
      simp at h4

/-- Witness for C10: download succeeds on attempt 1, export fails cleanly. -/
theorem process_row_keeps_temp_witness :
    rowComplete sampleRow ∧
    ¬((emptyFs (final_path sampleCfg sampleRow)).isSome = true ∧
      sampleCfg.overwrite_existing_files = false) ∧
    (download_song (stripStr sampleRow.song) (fun _ => RunOutcome.ok 7)
      (downloaded_file sampleCfg sampleRow) sampleCfg.max_download_retries
      sampleCfg.retry_delay_seconds emptyFs).1 = Except.ok true ∧
    (trim_song sampleCfg trFail
      (download_song (stripStr sampleRow.song) (fun _ => RunOutcome.ok 7)
        (downloaded_file sampleCfg sampleRow) sampleCfg.max_download_retries
        sampleCfg.retry_delay_seconds emptyFs).2.2
      (downloaded_file sampleCfg sampleRow) (final_path sampleCfg sampleRow)
      (stripStr sampleRow.startTime) sampleCfg.default_clip_duration_seconds
      sampleCfg.normalize_audio).1 = false ∧
    downloaded_file sampleCfg sampleRow ≠ final_path sampleCfg sampleRow ∧
    ((process_row sampleCfg (fun _ => RunOutcome.ok 7) trFail sampleRow emptyFs).1 =
      Except.ok () ∧
    Event.removeTemp ∉
      (process_row sampleCfg (fun _ => RunOutcome.ok 7) trFail sampleRow emptyFs).2.1 ∧
    ∃ c, (process_row sampleCfg (fun _ => RunOutcome.ok 7) trFail sampleRow emptyFs).2.2
      (downloaded_file sampleCfg sampleRow) = some (FileVal.bytes c)) :=
  ⟨by unfold rowComplete; decide, by decide, rfl, rfl, by decide,
   process_row_keeps_temp sampleCfg (fun _ => RunOutcome.ok 7) trFail sampleRow emptyFs
     (by unfold rowComplete; decide) (by decide) rfl rfl (by decide)⟩

lemma csv_loop_progress (cfg : Config) (dl : Nat → Nat → RunOutcome)
    (tr : Nat → TrimOracle) : ∀ (rows : List Row) (idx progress : Nat) (fs : Fs),
    (csv_loop cfg dl tr rows idx progress fs).1 = progress + rows.length ∧
    (csv_loop cfg dl tr rows idx progress fs).2.1.length = rows.length := by
  intro rows
  induction rows with
  | nil =>
    intro idx progress fs
    exact ⟨by simp [csv_loop], by simp [csv_loop]⟩
  | cons row rest ih =>
    intro idx progress fs
    obtain ⟨h1, h2⟩ := ih (idx + 1) (progress + 1)
      (process_row cfg (dl idx) (tr idx) row fs).2.2
    constructor
    · show (csv_loop cfg dl tr (row :: rest) idx progress fs).1 = progress + (row :: rest).length
      simp only [csv_loop]
      rw [h1]
      simp
      omega
    · show (csv_loop cfg dl tr (row :: rest) idx progress fs).2.1.length = (row :: rest).length
      simp only [csv_loop]
      simp [h2]

/-- C9: the batch driver advances its progress counter exactly once per
row — whatever each row's outcome, including a `process_row` that raises
(the oracles are universally quantified, so rows may succeed, skip, fail,
or raise) — records one outcome per row, and itself never raises: per-row
exceptions are caught at this layer and do not abort the loop. -/
theorem process_csv_progress (cfg : Config) (dl : Nat → Nat → RunOutcome)
    (tr : Nat → TrimOracle) (rows : List Row) (fs : Fs) :
    (process_csv cfg dl tr rows fs).1 = rows.length ∧
    (process_csv cfg dl tr rows fs).2.1.length = rows.length := by
  obtain ⟨h1, h2⟩ := csv_loop_progress cfg dl tr rows 0 0 fs
  constructor
  · show (csv_loop cfg dl tr rows 0 0 fs).1 = rows.length
    rw [h1]
    omega
  · exact h2
